import Mathlib

/-!
Shallow embedding of `src/main.py` (document validator: OCR/PDF text
extraction, normalization, keyword matching) and proofs about it.

Strings are modelled through their character lists (`String.data`); the
ASCII fragment of Python's `str.lower` and of the regex class `\s` is
modelled explicitly (`Char.toLower` in Lean core is exactly the ASCII
lowering Python performs on ASCII text).
-/

/-- Characters matched by Python's regex `\s` on ASCII text:
space, tab, newline, carriage return, vertical tab, form feed. -/
def isSpaceC (c : Char) : Bool :=
  c.toNat = 32 || c.toNat = 9 || c.toNat = 10 || c.toNat = 13 ||
  c.toNat = 11 || c.toNat = 12

/-- One pass of `re.sub(r'\s+', ' ', text)`: every maximal run of
whitespace becomes a single space.  The boolean records whether the
previous character belonged to a whitespace run. -/
def collapseWs : Bool → List Char → List Char
  | _, [] => []
  | prev, c :: cs =>
    if isSpaceC c then
      if prev then collapseWs true cs else ' ' :: collapseWs true cs
    else c :: collapseWs false cs

/-- Character-list version of `normalize_text`:
`re.sub(r'\s+', ' ', text).lower()`. -/
def normChars (l : List Char) : List Char :=
  (collapseWs false l).map Char.toLower

/-- `normalize_text` from `src/main.py`. -/
def normalize_text (s : String) : String :=
  ⟨normChars s.data⟩

/-- The collapsed form contains no two adjacent whitespace characters. -/
def noSpaceRun : List Char → Bool
  | c :: d :: rest => (!(isSpaceC c && isSpaceC d)) && noSpaceRun (d :: rest)
  | _ => true

/-- Every whitespace character of the list is literally the space
character. -/
def wsCanon : List Char → Bool
  | [] => true
  | c :: cs => (!isSpaceC c || c = ' ') && wsCanon cs

/-- State of the whitespace collapser after consuming a list: `true`
exactly when the last character consumed was whitespace. -/
def endState : Bool → List Char → Bool
  | b, [] => b
  | _, c :: cs => endState (isSpaceC c) cs

/-- Does the second list start with the first one? -/
def startsWithL : List Char → List Char → Bool
  | [], _ => true
  | _ :: _, [] => false
  | p :: ps, c :: cs => p == c && startsWithL ps cs

/-- Python's substring containment `p in l`, on character lists. -/
def isSubstr (p : List Char) : List Char → Bool
  | [] => startsWithL p []
  | c :: t => startsWithL p (c :: t) || isSubstr p t

/-- Python's `s.endswith(suf)`, on character lists. -/
def endsWithL (s suf : List Char) : Bool :=
  startsWithL suf.reverse s.reverse

/-- Python's `s.lower()` (ASCII fragment). -/
def lowerStr (s : String) : String :=
  ⟨s.data.map Char.toLower⟩

/-- The document-type registry `DOCUMENT_KEYWORDS` of `src/main.py`,
with the source's key order and keyword order. -/
def DOCUMENT_KEYWORDS : List (String × List String) :=
  [("sss-gsis-umid", ["unified multi-purpose id", "multi-purpose",
      "pambansang pagkakakilanlan", "philippine identification card",
      "gsis", "sss"]),
   ("philid", ["philippine identification card", "pambansang pagkakakilanlan"]),
   ("business-permit", ["business permit"]),
   ("articles-of-incorporation", ["articles of incorporation", "incorporated"]),
   ("dti-license", ["department of trade and industry", "dti certificate"]),
   ("bir-form", ["bir form", "bureau of internal revenue"]),
   ("amended-gis", ["amended general information sheet", "amended gis"]),
   ("sec", ["securities and exchange commission"]),
   ("passport", ["passport", "republic of the philippines passport"]),
   ("drivers-license", ["driver's license", "dln"]),
   ("tin-id", ["taxpayer identification number", "tin id"])]

/-- Python dict lookup `d[k]` / membership `k in d`, on the association
list representing the registry. -/
def lookupKw (t : String) : List (String × List String) → Option (List String)
  | [] => none
  | (k, v) :: rest => if t = k then some v else lookupKw t rest

/-- The generator expression
`next((kw for kw in keywords if kw in normalized_text), None)` of
`validate_file`: first keyword of the list that is a substring. -/
def firstMatch : List String → List Char → Option String
  | [], _ => none
  | kw :: rest, nt => if isSubstr kw.data nt then some kw else firstMatch rest nt

/-- The JSON payload built by `validate_file` on success. -/
structure ValidationResult where
  is_valid : Bool
  message : String
  debug_text_snippet : String
deriving DecidableEq, Repr

/-- Response construction of `validate_file` from the keyword list of
the declared type and the normalized text: Python's `bool(found_keyword)`
and the conditional f-string are truthiness tests, so an empty matched
string would count as no match. -/
def build_response (keywords : List String) (normalized_text : String) :
    ValidationResult :=
  let found_keyword := firstMatch keywords normalized_text.data
  { is_valid := match found_keyword with
      | some kw => !kw.isEmpty
      | none => false
    message := match found_keyword with
      | some kw =>
          if kw.isEmpty then "No expected keyword found."
          else "\"" ++ kw ++ "\" detected."
      | none => "No expected keyword found."
    debug_text_snippet := ⟨normalized_text.data.take 1000⟩ }

/-- Containment of a keyword in a string up to case differences and
whitespace variations: some segment of the string normalizes to the
keyword. -/
def containsVariant (s kw : List Char) : Prop :=
  ∃ a v b, s = a ++ v ++ b ∧ normChars v = kw

/-- One page of an opened PDF, with the outcomes of the two external
library calls made on it: `page.extract_text()` (an optional string) and
`pytesseract.image_to_string(page.to_image(resolution=r).original)` as a
function of the rasterization resolution `r`. -/
structure PdfPage where
  extractedText : Option String
  ocrAt : Nat → String

/-- The accumulation loop of `extract_text_from_pdf`: Python's
`if page_text:` is a truthiness test, so both `None` and the empty
string take the OCR fallback branch at resolution 300. -/
def pdfLoop : List PdfPage → String → String
  | [], text => text
  | page :: rest, text =>
    match page.extractedText with
    | some page_text =>
        if page_text.isEmpty then pdfLoop rest (text ++ (page.ocrAt 300 ++ "\n"))
        else pdfLoop rest (text ++ (page_text ++ "\n"))
    | none => pdfLoop rest (text ++ (page.ocrAt 300 ++ "\n"))

/-- `extract_text_from_pdf` from `src/main.py`, over the opened
document's page list. -/
def extract_text_from_pdf (pages : List PdfPage) : String :=
  pdfLoop pages ""

/-- Modelled from the spec (4.4): the text contributed by a single page —
the embedded text plus a newline when it is present and non-empty,
otherwise the 300 DPI OCR output plus a newline. -/
def pdfPageTextSpec (page : PdfPage) : String :=
  match page.extractedText with
  | some t => if t.isEmpty then page.ocrAt 300 ++ "\n" else t ++ "\n"
  | none => page.ocrAt 300 ++ "\n"

/-- Modelled from the spec (4.4): concatenation of the per-page text in
page order. -/
def pdfConcatSpec : List PdfPage → String
  | [] => ""
  | page :: rest => pdfPageTextSpec page ++ pdfConcatSpec rest

/-- Observable side effects of a request, for the temp-file and
extraction-work guarantees. -/
inductive ExtractEv where
  | tmpCreate : ExtractEv
  | tmpDelete : ExtractEv
  | extractImage : ExtractEv
  | extractPdf : ExtractEv
deriving DecidableEq, Repr

/-- A Python exception as observed at the request boundary: either a
`fastapi.HTTPException` with a status code and detail, or any other
exception carrying its message. -/
inductive PyExc where
  | http : Nat → String → PyExc
  | exc : String → PyExc
deriving DecidableEq, Repr

/-- Python's `str(e)` for the exceptions the handler can catch
(starlette renders an `HTTPException` as "status: detail"). -/
def strOfExc : PyExc → String
  | .http status detail => toString status ++ ": " ++ detail
  | .exc msg => msg

/-- An uploaded file: its filename and the outcomes of the two external
extraction pipelines on its bytes (`Except.error` is a raised
exception — decode failure, OCR engine failure, or an unparseable
PDF container). -/
structure UploadFile where
  filename : String
  imageExtract : Except String String
  pdfParse : Except String (List PdfPage)

/-- `process_file` from `src/main.py`.  The temp file is created before
routing and removed in the `finally` block on every path; besides the
result we record the side-effect trace: temp-file creation, the
extraction pipeline invoked (if any), and temp-file deletion. -/
def process_file (file : UploadFile) : Except PyExc String × List ExtractEv :=
  let ext := lowerStr file.filename
  let routed : Except PyExc String × List ExtractEv :=
    if endsWithL ext.data ".png".data || endsWithL ext.data ".jpg".data ||
        endsWithL ext.data ".jpeg".data then
      (match file.imageExtract with
        | Except.ok t => Except.ok t
        | Except.error m => Except.error (PyExc.exc m),
       [ExtractEv.extractImage])
    else if endsWithL ext.data ".pdf".data then
      (match file.pdfParse with
        | Except.ok pages => Except.ok (extract_text_from_pdf pages)
        | Except.error m => Except.error (PyExc.exc m),
       [ExtractEv.extractPdf])
    else
      (Except.error (PyExc.http 400 "Unsupported file format"), [])
  (routed.1, ExtractEv.tmpCreate :: routed.2 ++ [ExtractEv.tmpDelete])

/-- The `/validate-file` endpoint `validate_file` from `src/main.py`.
The whole body runs inside `try: ... except Exception as e:
raise HTTPException(status_code=500, detail=str(e))`; since
`HTTPException` is itself an `Exception`, the two 400s raised inside the
body are also caught and re-raised as 500. -/
def validate_file (type : String) (file : UploadFile) :
    Except PyExc ValidationResult × List ExtractEv :=
  let body : Except PyExc ValidationResult × List ExtractEv :=
    match lookupKw type DOCUMENT_KEYWORDS with
    | none => (Except.error (PyExc.http 400 "Unsupported document type"), [])
    | some keywords =>
      match process_file file with
      | (Except.error e, evs) => (Except.error e, evs)
      | (Except.ok raw_text, evs) =>
          (Except.ok (build_response keywords (normalize_text raw_text)), evs)
  match body.1 with
  | Except.ok resp => (Except.ok resp, body.2)
  | Except.error e => (Except.error (PyExc.http 500 (strOfExc e)), body.2)

/-- HTTP 4xx. -/
def isClientError (status : Nat) : Bool :=
  400 ≤ status && status < 500

/-- HTTP 5xx. -/
def isServerError (status : Nat) : Bool :=
  500 ≤ status && status < 600

/-- A sample upload whose filename has an unsupported extension. -/
def sampleTxtUpload : UploadFile :=
  { filename := "doc.txt", imageExtract := Except.ok "", pdfParse := Except.ok [] }

/-- A sample PNG upload whose OCR output is "PASSPORT". -/
def sampleImgUpload : UploadFile :=
  { filename := "id.png", imageExtract := Except.ok "PASSPORT",
    pdfParse := Except.ok [] }

/-- A sample PDF upload with an upper-case extension and no pages. -/
def samplePdfUpload : UploadFile :=
  { filename := "Scan.PDF", imageExtract := Except.error "cannot identify image",
    pdfParse := Except.ok [] }

theorem toNat_ofNat_valid (n : Nat) (h : n.isValidChar) :
    (Char.ofNat n).toNat = n := by
  rw [Char.ofNat, dif_pos h]
  rfl

theorem toNat_toLower_of_upper {c : Char} (h : 65 ≤ c.toNat ∧ c.toNat ≤ 90) :
    (Char.toLower c).toNat = c.toNat + 32 := by
  have hv : (c.toNat + 32).isValidChar := Or.inl (by omega)
  unfold Char.toLower
  rw [if_pos ⟨h.1, h.2⟩]
  exact toNat_ofNat_valid _ hv

theorem toLower_of_not_upper {c : Char} (h : ¬(65 ≤ c.toNat ∧ c.toNat ≤ 90)) :
    Char.toLower c = c := by
  unfold Char.toLower
  rw [if_neg h]

theorem isSpaceC_toLower (c : Char) : isSpaceC (Char.toLower c) = isSpaceC c := by
  by_cases h : 65 ≤ c.toNat ∧ c.toNat ≤ 90
  · have h1 := toNat_toLower_of_upper h
    have hA : isSpaceC (Char.toLower c) = false := by
      simp [isSpaceC, h1]
      omega
    have hB : isSpaceC c = false := by
      simp [isSpaceC]
      omega
    rw [hA, hB]
  · rw [toLower_of_not_upper h]

theorem toLower_toLower (c : Char) :
    Char.toLower (Char.toLower c) = Char.toLower c := by
  by_cases h : 65 ≤ c.toNat ∧ c.toNat ≤ 90
  · have h1 := toNat_toLower_of_upper h
    exact toLower_of_not_upper (by omega)
  · rw [toLower_of_not_upper h, toLower_of_not_upper h]

theorem toLower_space : Char.toLower ' ' = ' ' := by
  exact toLower_of_not_upper (by simp)

/-- Collapsing commutes with ASCII lowering, because lowering never
creates or destroys a whitespace character. -/
theorem collapseWs_map_toLower (l : List Char) :
    ∀ b, collapseWs b (l.map Char.toLower) = (collapseWs b l).map Char.toLower := by
  induction l with
  | nil => intro b; simp [collapseWs]
  | cons c cs ih =>
    intro b
    by_cases hs : isSpaceC c
    · have hs' : isSpaceC (Char.toLower c) = true := by
        rw [isSpaceC_toLower]; exact hs
      by_cases hb : b
      · simp [collapseWs, hs, hs', hb, ih]
      · simp [collapseWs, hs, hs', hb, ih, toLower_space]
    · have hs' : isSpaceC (Char.toLower c) = false := by
        rw [isSpaceC_toLower]; simpa using hs
      simp [collapseWs, hs, hs', ih]

/-- Whatever the starting state, a collapse begun in state `true` never
emits a leading whitespace character. -/
theorem collapseWs_true_head :
    ∀ (l : List Char) c rest, collapseWs true l = c :: rest → isSpaceC c = false := by
  intro l
  induction l with
  | nil => intro c rest h; simp [collapseWs] at h
  | cons x xs ih =>
    intro c rest h
    by_cases hx : isSpaceC x
    · rw [show collapseWs true (x :: xs) = collapseWs true xs by
        simp [collapseWs, hx]] at h
      exact ih c rest h
    · rw [show collapseWs true (x :: xs) = x :: collapseWs false xs by
        simp [collapseWs, hx]] at h
      cases h
      simpa using hx

theorem noSpaceRun_collapseWs (l : List Char) :
    ∀ b, noSpaceRun (collapseWs b l) = true := by
  induction l with
  | nil => intro b; simp [collapseWs, noSpaceRun]
  | cons c cs ih =>
    intro b
    by_cases hs : isSpaceC c
    · by_cases hb : b
      · simpa [collapseWs, hs, hb] using ih true
      · rw [show collapseWs b (c :: cs) = ' ' :: collapseWs true cs by
          simp [collapseWs, hs, hb]]
        cases hcs : collapseWs true cs with
        | nil => simp [noSpaceRun]
        | cons d rest =>
          have hd := collapseWs_true_head cs d rest hcs
          have hrest : noSpaceRun (d :: rest) = true := by
            rw [← hcs]; exact ih true
          simp [noSpaceRun, hd, hrest]
    · rw [show collapseWs b (c :: cs) = c :: collapseWs false cs by
        simp [collapseWs, hs]]
      cases hcs : collapseWs false cs with
      | nil => simp [noSpaceRun]
      | cons d rest =>
        have hrest : noSpaceRun (d :: rest) = true := by
          rw [← hcs]; exact ih false
        simp [noSpaceRun, hs, hrest]

theorem wsCanon_collapseWs (l : List Char) :
    ∀ b, wsCanon (collapseWs b l) = true := by
  induction l with
  | nil => intro b; simp [collapseWs, wsCanon]
  | cons c cs ih =>
    intro b
    by_cases hs : isSpaceC c
    · by_cases hb : b
      · simpa [collapseWs, hs, hb] using ih true
      · rw [show collapseWs b (c :: cs) = ' ' :: collapseWs true cs by
          simp [collapseWs, hs, hb]]
        simp [wsCanon, ih true]
    · rw [show collapseWs b (c :: cs) = c :: collapseWs false cs by
        simp [collapseWs, hs]]
      simp [wsCanon, hs, ih false]

/-- A list with no whitespace runs, whose whitespace is canonical, is a
fixed point of collapsing; started in state `true` this additionally
needs a non-whitespace head. -/
theorem collapseWs_fix (l : List Char) (h1 : noSpaceRun l = true)
    (h2 : wsCanon l = true) :
    collapseWs false l = l ∧
      ((∀ c rest, l = c :: rest → isSpaceC c = false) → collapseWs true l = l) := by
  induction l with
  | nil => exact ⟨rfl, fun _ => rfl⟩
  | cons c cs ih =>
    have h1' : noSpaceRun cs = true := by
      cases cs with
      | nil => simp [noSpaceRun]
      | cons d rest => simp [noSpaceRun] at h1 ⊢; exact h1.2
    have h2' : wsCanon cs = true := by
      simp [wsCanon] at h2 ⊢; exact h2.2
    have ihx := ih h1' h2'
    by_cases hs : isSpaceC c
    · have hc : c = ' ' := by
        simp [wsCanon, hs] at h2; exact h2.1
      have hcs : ∀ d rest, cs = d :: rest → isSpaceC d = false := by
        intro d rest hdr
        subst hdr
        simp [noSpaceRun, hs] at h1
        simpa using h1.1
      constructor
      · rw [show collapseWs false (c :: cs) = ' ' :: collapseWs true cs by
          simp [collapseWs, hs]]
        rw [ihx.2 hcs, hc]
      · intro hhead
        exact absurd (hhead c cs rfl) (by simp [hs])
    · constructor
      · rw [show collapseWs false (c :: cs) = c :: collapseWs false cs by
          simp [collapseWs, hs]]
        rw [ihx.1]
      · intro _
        rw [show collapseWs true (c :: cs) = c :: collapseWs false cs by
          simp [collapseWs, hs]]
        rw [ihx.1]

theorem normChars_idem (l : List Char) : normChars (normChars l) = normChars l := by
  unfold normChars
  rw [collapseWs_map_toLower]
  rw [(collapseWs_fix (collapseWs false l) (noSpaceRun_collapseWs l false)
    (wsCanon_collapseWs l false)).1]
  rw [List.map_map]
  exact List.map_congr_left fun c _ => toLower_toLower c

/-- C8: `normalize_text` is idempotent. -/
theorem normalize_text_idem (s : String) :
    normalize_text (normalize_text s) = normalize_text s := by
  unfold normalize_text
  exact congrArg String.mk (normChars_idem s.data)

theorem startsWithL_iff (p : List Char) : ∀ l : List Char,
    startsWithL p l = true ↔ ∃ t, l = p ++ t := by
  induction p with
  | nil => intro l; simp [startsWithL]
  | cons c ps ih =>
    intro l
    cases l with
    | nil => simp [startsWithL]
    | cons d ds =>
      simp only [startsWithL, Bool.and_eq_true, beq_iff_eq, ih, List.cons_append]
      constructor
      · rintro ⟨rfl, t, rfl⟩
        exact ⟨t, rfl⟩
      · rintro ⟨t, h⟩
        rw [List.cons.injEq] at h
        exact ⟨h.1.symm, t, h.2⟩

theorem isSubstr_iff (p : List Char) : ∀ l : List Char,
    isSubstr p l = true ↔ ∃ a b, l = a ++ (p ++ b) := by
  intro l
  induction l with
  | nil =>
    simp only [isSubstr, startsWithL_iff]
    constructor
    · rintro ⟨t, h⟩
      exact ⟨[], t, h⟩
    · rintro ⟨a, b, h⟩
      have h' := h.symm
      rw [List.append_eq_nil] at h'
      exact ⟨b, h'.2.symm⟩
  | cons c t ih =>
    simp only [isSubstr, Bool.or_eq_true, startsWithL_iff, ih]
    constructor
    · rintro (⟨b, h⟩ | ⟨a, b, rfl⟩)
      · exact ⟨[], b, by simpa using h⟩
      · exact ⟨c :: a, b, rfl⟩
    · rintro ⟨a, b, h⟩
      cases a with
      | nil => exact Or.inl ⟨b, by simpa using h⟩
      | cons x xs =>
        rw [List.cons_append, List.cons.injEq] at h
        exact Or.inr ⟨xs, b, h.2⟩

theorem firstMatch_eq_none_iff (kws : List String) (nt : List Char) :
    firstMatch kws nt = none ↔ ∀ kw ∈ kws, isSubstr kw.data nt = false := by
  induction kws with
  | nil => simp [firstMatch]
  | cons k rest ih =>
    by_cases hk : isSubstr k.data nt = true
    · simp [firstMatch, hk]
    · simp only [Bool.not_eq_true] at hk
      simp [firstMatch, hk, ih]

theorem firstMatch_eq_some_iff (kws : List String) (nt : List Char) (kw : String) :
    firstMatch kws nt = some kw ↔
      ∃ pre post, kws = pre ++ kw :: post ∧ isSubstr kw.data nt = true ∧
        ∀ k ∈ pre, isSubstr k.data nt = false := by
  induction kws with
  | nil => simp [firstMatch]
  | cons k0 rest ih =>
    by_cases hk : isSubstr k0.data nt = true
    · rw [firstMatch, if_pos hk]
      constructor
      · intro h
        rw [Option.some.injEq] at h
        exact ⟨[], rest, by simp [h], by rw [← h]; exact hk, by simp⟩
      · rintro ⟨pre, post, hsplit, hsub, hpre⟩
        cases pre with
        | nil =>
          rw [List.nil_append, List.cons.injEq] at hsplit
          rw [hsplit.1]
        | cons p ps =>
          rw [List.cons_append, List.cons.injEq] at hsplit
          have := hpre p (List.mem_cons_self p ps)
          rw [← hsplit.1] at this
          rw [this] at hk
          exact absurd hk (by simp)
    · rw [firstMatch, if_neg hk, ih]
      constructor
      · rintro ⟨pre, post, rfl, hsub, hpre⟩
        refine ⟨k0 :: pre, post, rfl, hsub, ?_⟩
        intro k hkmem
        rcases List.mem_cons.mp hkmem with rfl | hmem
        · simpa using hk
        · exact hpre k hmem
      · rintro ⟨pre, post, hsplit, hsub, hpre⟩
        cases pre with
        | nil =>
          rw [List.nil_append, List.cons.injEq] at hsplit
          rw [← hsplit.1] at hsub
          exact absurd hsub hk
        | cons p ps =>
          rw [List.cons_append, List.cons.injEq] at hsplit
          exact ⟨ps, post, hsplit.2, hsub,
            fun k hkmem => hpre k (List.mem_cons_of_mem p hkmem)⟩

theorem firstMatch_mem {kws : List String} {nt : List Char} {kw : String}
    (h : firstMatch kws nt = some kw) : kw ∈ kws := by
  obtain ⟨pre, post, rfl, _, _⟩ := (firstMatch_eq_some_iff kws nt kw).mp h
  simp

theorem firstMatch_substr {kws : List String} {nt : List Char} {kw : String}
    (h : firstMatch kws nt = some kw) : isSubstr kw.data nt = true :=
  ((firstMatch_eq_some_iff kws nt kw).mp h).choose_spec.choose_spec.2.1

theorem firstMatch_isSome_of_exists {kws : List String} {nt : List Char}
    (h : ∃ kw ∈ kws, isSubstr kw.data nt = true) :
    ∃ kw2, firstMatch kws nt = some kw2 := by
  cases hfm : firstMatch kws nt with
  | none =>
    obtain ⟨kw, hmem, hsub⟩ := h
    have := (firstMatch_eq_none_iff kws nt).mp hfm kw hmem
    rw [this] at hsub
    exact absurd hsub (by simp)
  | some kw2 => exact ⟨kw2, rfl⟩

theorem lookupKw_mem {t : String} {kws : List String} :
    ∀ {l : List (String × List String)}, lookupKw t l = some kws → (t, kws) ∈ l := by
  intro l
  induction l with
  | nil => intro h; simp [lookupKw] at h
  | cons p rest ih =>
    obtain ⟨k, v⟩ := p
    intro h
    by_cases ht : t = k
    · rw [show lookupKw t ((k, v) :: rest) = some v by simp [lookupKw, ht]] at h
      rw [Option.some.injEq] at h
      rw [ht, h]
      exact List.mem_cons_self _ _
    · rw [show lookupKw t ((k, v) :: rest) = lookupKw t rest by
        simp [lookupKw, ht]] at h
      exact List.mem_cons_of_mem _ (ih h)

theorem registry_keywords_fixed :
    ∀ p ∈ DOCUMENT_KEYWORDS, ∀ kw ∈ p.2, normalize_text kw = kw := by decide

theorem registry_keywords_wf :
    ∀ p ∈ DOCUMENT_KEYWORDS, ∀ kw ∈ p.2,
      kw.isEmpty = false ∧ kw.data ≠ [] ∧ kw.data.head? ≠ some ' ' := by decide

/-- C2: for every registered document type and every normalized text,
validation scans the type's keyword list in its defined order and selects
the first keyword that is a literal substring of the text (none when no
keyword matches); `is_valid` is true exactly when a keyword was found,
and the message is the matched keyword in quotes followed by
" detected." when found, and the fixed "No expected keyword found."
message otherwise. -/
theorem keyword_scan_first_match (t : String) (kws : List String)
    (nt : String) (hreg : lookupKw t DOCUMENT_KEYWORDS = some kws) :
    (∀ kw, firstMatch kws nt.data = some kw →
      isSubstr kw.data nt.data = true ∧
      ∃ pre post, kws = pre ++ kw :: post ∧
        ∀ k ∈ pre, isSubstr k.data nt.data = false) ∧
    (firstMatch kws nt.data = none ↔ ∀ kw ∈ kws, isSubstr kw.data nt.data = false) ∧
    ((build_response kws nt).is_valid = true ↔
      ∃ kw, firstMatch kws nt.data = some kw) ∧
    (∀ kw, firstMatch kws nt.data = some kw →
      (build_response kws nt).message = "\"" ++ kw ++ "\" detected.") ∧
    (firstMatch kws nt.data = none →
      (build_response kws nt).message = "No expected keyword found.") := by
  have hok := registry_keywords_wf _ (lookupKw_mem hreg)
  refine ⟨?_, firstMatch_eq_none_iff kws nt.data, ?_, ?_, ?_⟩
  · intro kw h
    obtain ⟨pre, post, rfl, hsub, hpre⟩ := (firstMatch_eq_some_iff _ _ _).mp h
    exact ⟨hsub, pre, post, rfl, hpre⟩
  · cases hfm : firstMatch kws nt.data with
    | none => simp [build_response, hfm]
    | some kw =>
      have hne := (hok kw (firstMatch_mem hfm)).1
      simp [build_response, hfm, hne]
  · intro kw h
    have hne := (hok kw (firstMatch_mem h)).1
    simp [build_response, h, hne]
  · intro h
    simp [build_response, h]

theorem keyword_scan_first_match_witness :
    (build_response ["passport", "republic of the philippines passport"]
        "my passport here").message = "\"passport\" detected." :=
  (keyword_scan_first_match "passport"
      ["passport", "republic of the philippines passport"]
      "my passport here" rfl).2.2.2.1 "passport" (by decide)

/-- C10: every keyword in the registry is a fixed point of
`normalize_text`, so testing a registry keyword for substring containment
in normalized text is the same as testing its normalized form. -/
theorem registry_keyword_norm_fixed (t : String) (kws : List String)
    (hmem : (t, kws) ∈ DOCUMENT_KEYWORDS) (kw : String) (hkw : kw ∈ kws) :
    normalize_text kw = kw ∧
    ∀ nt : List Char, isSubstr kw.data nt = isSubstr (normalize_text kw).data nt := by
  have hfix := registry_keywords_fixed (t, kws) hmem kw hkw
  exact ⟨hfix, fun nt => by rw [hfix]⟩

theorem registry_keyword_norm_fixed_witness :
    normalize_text "bir form" = "bir form" :=
  (registry_keyword_norm_fixed "bir-form"
      ["bir form", "bureau of internal revenue"]
      (by decide) "bir form" (by decide)).1

theorem pdfLoop_concat (pages : List PdfPage) :
    ∀ text, pdfLoop pages text = text ++ pdfConcatSpec pages := by
  induction pages with
  | nil => intro text; simp [pdfLoop, pdfConcatSpec]
  | cons page rest ih =>
    intro text
    cases h : page.extractedText with
    | none =>
      rw [show pdfLoop (page :: rest) text =
          pdfLoop rest (text ++ (page.ocrAt 300 ++ "\n")) by simp [pdfLoop, h]]
      rw [ih]
      simp [pdfConcatSpec, pdfPageTextSpec, h, String.append_assoc]
    | some pt =>
      by_cases hpt : pt.isEmpty
      · rw [show pdfLoop (page :: rest) text =
            pdfLoop rest (text ++ (page.ocrAt 300 ++ "\n")) by simp [pdfLoop, h, hpt]]
        rw [ih]
        simp [pdfConcatSpec, pdfPageTextSpec, h, hpt, String.append_assoc]
      · rw [show pdfLoop (page :: rest) text =
            pdfLoop rest (text ++ (pt ++ "\n")) by simp [pdfLoop, h, hpt]]
        rw [ih]
        simp [pdfConcatSpec, pdfPageTextSpec, h, hpt, String.append_assoc]

/-- C4: the PDF extractor processes pages in document order, taking for
each page the embedded text plus a newline when that text is present and
non-empty and the 300 DPI OCR output plus a newline otherwise, and
returns the concatenation of the per-page text in page order. -/
theorem pdf_extractor_per_page (pages : List PdfPage) :
    extract_text_from_pdf pages = pdfConcatSpec pages := by
  rw [extract_text_from_pdf, pdfLoop_concat]
  simp

/-- C1: observed statuses at the two claim-relevant failing inputs.  The
request boundary's blanket `except Exception` also catches the
`HTTPException(400)` raised for an unregistered document type or an
unsupported file extension, and re-raises it with status 500, so both
cases surface as a server error, not the client error the claim
requires. -/
theorem unsupported_inputs_become_server_errors :
    (validate_file "unknown-type" sampleTxtUpload).1 =
      Except.error (PyExc.http 500 "400: Unsupported document type") ∧
    (validate_file "passport" sampleTxtUpload).1 =
      Except.error (PyExc.http 500 "400: Unsupported file format") ∧
    isClientError 500 = false ∧ isServerError 500 = true :=
  ⟨rfl, rfl, by decide, by decide⟩

theorem startsWithL_cons {c : Char} {ps l : List Char}
    (h : startsWithL (c :: ps) l = true) : ∃ t, l = c :: t := by
  cases l with
  | nil => simp [startsWithL] at h
  | cons d ds =>
    simp only [startsWithL, Bool.and_eq_true, beq_iff_eq] at h
    exact ⟨ds, by rw [h.1]⟩

/-- A filename cannot simultaneously end in ".pdf" and in one of the
image extensions, because the final characters differ. -/
theorem pdf_not_image_ext {e : List Char} (h : endsWithL e ".pdf".data = true) :
    endsWithL e ".png".data = false ∧ endsWithL e ".jpg".data = false ∧
    endsWithL e ".jpeg".data = false := by
  unfold endsWithL at h ⊢
  rw [show (".pdf".data).reverse = ['f', 'd', 'p', '.'] from rfl] at h
  obtain ⟨t, ht⟩ := startsWithL_cons h
  have hg : ∀ ps : List Char, startsWithL ('g' :: ps) e.reverse = false := by
    intro ps
    cases hsw : startsWithL ('g' :: ps) e.reverse with
    | false => rfl
    | true =>
      obtain ⟨t2, ht2⟩ := startsWithL_cons hsw
      rw [ht, List.cons.injEq] at ht2
      exact absurd ht2.1 (by decide)
  refine ⟨?_, ?_, ?_⟩
  · rw [show (".png".data).reverse = 'g' :: ['n', 'p', '.'] from rfl]
    exact hg _
  · rw [show (".jpg".data).reverse = 'g' :: ['p', 'j', '.'] from rfl]
    exact hg _
  · rw [show (".jpeg".data).reverse = 'g' :: ['e', 'p', 'j', '.'] from rfl]
    exact hg _

/-- C5: routing is decided by the lower-cased filename's extension:
an image extension routes to the image pipeline, ".pdf" routes to the
PDF pipeline, and anything else fails with the unsupported-format
error; the temp file is created and deleted around each case. -/
theorem routing_by_extension (file : UploadFile) :
    ((endsWithL (lowerStr file.filename).data ".png".data = true ∨
      endsWithL (lowerStr file.filename).data ".jpg".data = true ∨
      endsWithL (lowerStr file.filename).data ".jpeg".data = true) →
      process_file file =
        ((match file.imageExtract with
          | Except.ok t => Except.ok t
          | Except.error m => Except.error (PyExc.exc m)),
         [ExtractEv.tmpCreate, ExtractEv.extractImage, ExtractEv.tmpDelete])) ∧
    (endsWithL (lowerStr file.filename).data ".pdf".data = true →
      process_file file =
        ((match file.pdfParse with
          | Except.ok pages => Except.ok (extract_text_from_pdf pages)
          | Except.error m => Except.error (PyExc.exc m)),
         [ExtractEv.tmpCreate, ExtractEv.extractPdf, ExtractEv.tmpDelete])) ∧
    ((endsWithL (lowerStr file.filename).data ".png".data = false ∧
      endsWithL (lowerStr file.filename).data ".jpg".data = false ∧
      endsWithL (lowerStr file.filename).data ".jpeg".data = false ∧
      endsWithL (lowerStr file.filename).data ".pdf".data = false) →
      process_file file =
        (Except.error (PyExc.http 400 "Unsupported file format"),
         [ExtractEv.tmpCreate, ExtractEv.tmpDelete])) := by
  refine ⟨?_, ?_, ?_⟩
  · intro h
    have hcond : (endsWithL (lowerStr file.filename).data ".png".data ||
        endsWithL (lowerStr file.filename).data ".jpg".data ||
        endsWithL (lowerStr file.filename).data ".jpeg".data) = true := by
      rcases h with h | h | h <;> simp [h]
    simp only [process_file]
    rw [if_pos hcond]
    rfl
  · intro h
    have himg := pdf_not_image_ext h
    have hcond : (endsWithL (lowerStr file.filename).data ".png".data ||
        endsWithL (lowerStr file.filename).data ".jpg".data ||
        endsWithL (lowerStr file.filename).data ".jpeg".data) = false := by
      rw [himg.1, himg.2.1, himg.2.2]
      rfl
    simp only [process_file]
    rw [if_neg (by simp [hcond]), if_pos h]
    rfl
  · rintro ⟨h1, h2, h3, h4⟩
    have hcond : (endsWithL (lowerStr file.filename).data ".png".data ||
        endsWithL (lowerStr file.filename).data ".jpg".data ||
        endsWithL (lowerStr file.filename).data ".jpeg".data) = false := by
      rw [h1, h2, h3]
      rfl
    simp only [process_file]
    rw [if_neg (by simp [hcond]), if_neg (by simp [h4])]
    rfl

theorem routing_by_extension_witness :
    process_file samplePdfUpload =
      (Except.ok "", [ExtractEv.tmpCreate, ExtractEv.extractPdf,
        ExtractEv.tmpDelete]) := by
  rw [(routing_by_extension samplePdfUpload).2.1 (by decide)]
  rfl

/-- C6: a request whose declared type is not a key of the registry is
rejected before any extraction work: neither the image nor the PDF
extraction path is invoked (in fact no side effect at all happens). -/
theorem no_extraction_for_unknown_type (type : String) (file : UploadFile)
    (h : lookupKw type DOCUMENT_KEYWORDS = none) :
    ExtractEv.extractImage ∉ (validate_file type file).2 ∧
    ExtractEv.extractPdf ∉ (validate_file type file).2 := by
  have hev : (validate_file type file).2 = [] := by
    simp only [validate_file, h]
  rw [hev]
  simp

theorem no_extraction_for_unknown_type_witness :
    ExtractEv.extractImage ∉ (validate_file "umid" sampleTxtUpload).2 ∧
    ExtractEv.extractPdf ∉ (validate_file "umid" sampleTxtUpload).2 :=
  no_extraction_for_unknown_type "umid" sampleTxtUpload rfl

theorem process_file_events (file : UploadFile) :
    (process_file file).2 =
      [ExtractEv.tmpCreate, ExtractEv.extractImage, ExtractEv.tmpDelete] ∨
    (process_file file).2 =
      [ExtractEv.tmpCreate, ExtractEv.extractPdf, ExtractEv.tmpDelete] ∨
    (process_file file).2 = [ExtractEv.tmpCreate, ExtractEv.tmpDelete] := by
  simp only [process_file]
  by_cases h1 : (endsWithL (lowerStr file.filename).data ".png".data ||
      endsWithL (lowerStr file.filename).data ".jpg".data ||
      endsWithL (lowerStr file.filename).data ".jpeg".data) = true
  · rw [if_pos h1]
    exact Or.inl rfl
  · rw [if_neg h1]
    by_cases h2 : endsWithL (lowerStr file.filename).data ".pdf".data = true
    · rw [if_pos h2]
      exact Or.inr (Or.inl rfl)
    · rw [if_neg h2]
      exact Or.inr (Or.inr rfl)

theorem validate_file_events_of_registered (type : String) (file : UploadFile)
    (kws : List String) (h : lookupKw type DOCUMENT_KEYWORDS = some kws) :
    (validate_file type file).2 = (process_file file).2 := by
  simp only [validate_file, h]
  rcases hpf : process_file file with ⟨r, evs⟩
  cases r with
  | error e => simp
  | ok raw => simp

/-- C7: for every request that reaches file processing (its declared type
is registered), the side-effect trace is exactly one temp-file creation,
then at most one extraction, then exactly one temp-file deletion as the
final action before returning — on the success, extraction-failure and
unsupported-format paths alike. -/
theorem temp_file_deleted_once (type : String) (file : UploadFile)
    (kws : List String) (h : lookupKw type DOCUMENT_KEYWORDS = some kws) :
    ∃ mid, (validate_file type file).2 =
        ExtractEv.tmpCreate :: mid ++ [ExtractEv.tmpDelete] ∧
      (validate_file type file).2.count ExtractEv.tmpCreate = 1 ∧
      (validate_file type file).2.count ExtractEv.tmpDelete = 1 := by
  rw [validate_file_events_of_registered type file kws h]
  rcases process_file_events file with h2 | h2 | h2 <;> rw [h2]
  · exact ⟨[ExtractEv.extractImage], rfl, by decide, by decide⟩
  · exact ⟨[ExtractEv.extractPdf], rfl, by decide, by decide⟩
  · exact ⟨[], rfl, by decide, by decide⟩

theorem temp_file_deleted_once_witness :
    (validate_file "passport" sampleImgUpload).2.count ExtractEv.tmpCreate = 1 ∧
    (validate_file "passport" sampleImgUpload).2.count ExtractEv.tmpDelete = 1 :=
  ⟨(temp_file_deleted_once "passport" sampleImgUpload
      ["passport", "republic of the philippines passport"] rfl).choose_spec.2.1,
   (temp_file_deleted_once "passport" sampleImgUpload
      ["passport", "republic of the philippines passport"] rfl).choose_spec.2.2⟩

/-- C9: every successful response's debug_text_snippet is the first 1000
characters of the normalized extracted text, hence never longer than
1000 characters. -/
theorem snippet_is_first_1000 (type : String) (file : UploadFile)
    (resp : ValidationResult)
    (h : (validate_file type file).1 = Except.ok resp) :
    resp.debug_text_snippet.data.length ≤ 1000 ∧
    ∃ raw, (process_file file).1 = Except.ok raw ∧
      resp.debug_text_snippet = ⟨(normalize_text raw).data.take 1000⟩ := by
  unfold validate_file at h
  cases hlk : lookupKw type DOCUMENT_KEYWORDS with
  | none => rw [hlk] at h; simp at h
  | some kws =>
    rw [hlk] at h
    rcases hpf : process_file file with ⟨r, evs⟩
    rw [hpf] at h
    cases r with
    | error e => simp at h
    | ok raw =>
      simp only [Except.ok.injEq] at h
      refine ⟨?_, raw, rfl, ?_⟩
      · rw [← h]
        show ((normalize_text raw).data.take 1000).length ≤ 1000
        rw [List.length_take]
        exact Nat.min_le_left _ _
      · rw [← h]
        rfl

theorem snippet_is_first_1000_witness :
    (build_response ["passport", "republic of the philippines passport"]
        (normalize_text "PASSPORT")).debug_text_snippet.data.length ≤ 1000 :=
  (snippet_is_first_1000 "passport" sampleImgUpload
      (build_response ["passport", "republic of the philippines passport"]
        (normalize_text "PASSPORT")) rfl).1

theorem collapseWs_cons_not_space {c : Char} (h : isSpaceC c = false)
    (cs : List Char) (b : Bool) :
    collapseWs b (c :: cs) = c :: collapseWs false cs := by
  simp [collapseWs, h]

theorem collapseWs_append (x y : List Char) :
    ∀ b, collapseWs b (x ++ y) =
      collapseWs b x ++ collapseWs (endState b x) y := by
  induction x with
  | nil => intro b; simp [collapseWs, endState]
  | cons c cs ih =>
    intro b
    by_cases hs : isSpaceC c
    · by_cases hb : b
      · simp [collapseWs, hs, hb, endState, ih]
      · simp [collapseWs, hs, hb, endState, ih]
    · simp [collapseWs, hs, endState, ih]

theorem normChars_head_of_space {c : Char} (cs : List Char)
    (h : isSpaceC c = true) : (normChars (c :: cs)).head? = some ' ' := by
  unfold normChars
  rw [show collapseWs false (c :: cs) = ' ' :: collapseWs true cs by
    simp [collapseWs, h]]
  simp [toLower_space]

/-- If a segment of `s` normalizes to the keyword, and the keyword is
non-empty and does not start with a space, then the keyword occurs as a
literal substring of the normalization of all of `s`. -/
theorem substr_norm_of_variant {s kw : List Char} (hvar : containsVariant s kw)
    (hne : kw ≠ []) (hh : kw.head? ≠ some ' ') :
    isSubstr kw (normChars s) = true := by
  obtain ⟨a, v, b, rfl, hv⟩ := hvar
  cases v with
  | nil =>
    exact absurd (hv.symm.trans rfl) hne
  | cons c cs =>
    have hc : isSpaceC c = false := by
      by_contra h'
      rw [Bool.not_eq_false] at h'
      have hhead := normChars_head_of_space cs h'
      rw [hv] at hhead
      exact hh hhead
    rw [List.append_assoc, isSubstr_iff]
    unfold normChars
    rw [collapseWs_append a ((c :: cs) ++ b) false,
      collapseWs_append (c :: cs) b (endState false a),
      collapseWs_cons_not_space hc cs (endState false a)]
    refine ⟨(collapseWs false a).map Char.toLower,
      (collapseWs (endState (endState false a) (c :: cs)) b).map Char.toLower, ?_⟩
    rw [← hv]
    unfold normChars
    rw [collapseWs_cons_not_space hc cs false]
    simp

/-- C3 as literally stated is false: the message names the first keyword
of the type's list that matches, which need not be the keyword the text
was assumed to contain.  Here the text contains the registered keyword
"republic of the philippines passport" (up to case), yet the message
names "passport". -/
theorem message_names_first_match_counterexample :
    containsVariant "Republic of the Philippines Passport".data
      "republic of the philippines passport".data ∧
    lookupKw "passport" DOCUMENT_KEYWORDS =
      some ["passport", "republic of the philippines passport"] ∧
    "republic of the philippines passport" ∈
      ["passport", "republic of the philippines passport"] ∧
    (build_response ["passport", "republic of the philippines passport"]
        (normalize_text "Republic of the Philippines Passport")).message =
      "\"passport\" detected." ∧
    (build_response ["passport", "republic of the philippines passport"]
        (normalize_text "Republic of the Philippines Passport")).message ≠
      "\"republic of the philippines passport\" detected." := by
  refine ⟨⟨[], "Republic of the Philippines Passport".data, [], by simp,
    by decide⟩, rfl, by decide, by decide, by decide⟩

/-- C3 (amended): for every registered type and every text containing one
of the type's keywords up to case differences and whitespace variations,
validation returns is_valid = true, and the message names the first
keyword of the type's list that is a substring of the normalized text
(which may differ from the given keyword). -/
theorem variant_containment_validates (t : String) (kws : List String)
    (kw : String) (S : String)
    (hreg : lookupKw t DOCUMENT_KEYWORDS = some kws) (hkw : kw ∈ kws)
    (hvar : containsVariant S.data kw.data) :
    (build_response kws (normalize_text S)).is_valid = true ∧
    ∃ kw2 ∈ kws, isSubstr kw2.data (normalize_text S).data = true ∧
      (build_response kws (normalize_text S)).message =
        "\"" ++ kw2 ++ "\" detected." := by
  have hok := registry_keywords_wf _ (lookupKw_mem hreg)
  have hsub : isSubstr kw.data (normChars S.data) = true :=
    substr_norm_of_variant hvar (hok kw hkw).2.1 (hok kw hkw).2.2
  obtain ⟨kw2, hfm⟩ :=
    @firstMatch_isSome_of_exists kws (normalize_text S).data ⟨kw, hkw, hsub⟩
  have hne2 := (hok kw2 (firstMatch_mem hfm)).1
  exact ⟨by simp [build_response, hfm, hne2], kw2, firstMatch_mem hfm,
    firstMatch_substr hfm, by simp [build_response, hfm, hne2]⟩

theorem variant_containment_validates_witness :
    (build_response ["passport", "republic of the philippines passport"]
        (normalize_text "My PASSPORT scan")).is_valid = true :=
  (variant_containment_validates "passport"
      ["passport", "republic of the philippines passport"]
      "passport" "My PASSPORT scan" rfl (by decide)
      ⟨"My ".data, "PASSPORT".data, " scan".data, by decide, by decide⟩).1
